import Mathlib

/-!
Verification development for the chatUI repository.

This file gives a shallow embedding, in Lean 4, of the two algorithmic
subsystems of the repository:

* the event-stream aggregation / turn-execution pipeline of
  `src/components/chat.py` (`render_message_events`,
  `extract_assistant_content`, the marked-context assembly and the
  streaming/persistence `render` loop), and
* the LLM-as-judge document reranker of
  `src/utils/heuristic_reranker.py` (`HeuristicReranker.__init__` and
  `HeuristicReranker.rerank`).

Conventions of the embedding:

* A persisted event log is a line-delimited sequence.  `json.dumps` of an
  event dict always produces exactly one non-blank line, so a log is
  modelled as a `List LogLine`.  A `LogLine` is either `blank`
  (whitespace-only, removed by the `line.strip()` filters), `raw s` (a
  non-blank line that `json.loads` rejects, or that parses to a non-object
  JSON value, so that any attribute access on it raises and is swallowed
  by the surrounding `except`), or `json e` (a line parsing to a JSON
  object, of which only the fields read by the code are modelled).
* Python `dict.get(key, default)` on the parsed objects is modelled by
  `Option` fields plus `Option.getD`.  Fields the code never reads
  (`metrics`, `references`, extra keys) are omitted: no modelled
  function depends on them.
* Python floats are modelled by `ℚ`; the code only compares, clamps and
  sorts scores, which is order-theoretic and exact on `ℚ`.
* The external LLM judge of the reranker is modelled as an oracle
  `judge : Nat → JudgeResult` giving, per input position, the outcome of
  the scoring attempt for the document at that position: `ok (some q)`
  when the call returned text from which the `<score>` regex extracted
  the (non-negative) number `q`, `ok none` when the call returned but no
  score could be parsed, and `error` when an exception was raised.
* The streaming model call of the turn controller is modelled by the
  list of event objects the stream yielded before either finishing or
  raising, plus an optional exception message.
-/

/-! ## Wire events and log lines (src/components/chat.py) -/

/-- The `tool` sub-object of a streamed event dict: only the keys read by
`render_message_events` are modelled, each as optional since the code
accesses them with `dict.get` and a default. -/
structure ToolObj where
  tool_name : Option String
  tool_args : Option String
  result : Option String
deriving DecidableEq, Repr

/-- A streamed event dict, as parsed from one log line.  The code reads
`event.get("event")`, `event.get("content", "")` and
`event.get("tool", \x7b\x7d)`; all other keys are ignored by every modelled
consumer and hence omitted. -/
structure EventObj where
  event : Option String
  content : Option String
  tool : Option ToolObj
deriving DecidableEq, Repr

/-- One line of a serialized event log (the `full_response` string is the
concatenation of such lines, one per `json.dumps(event) + "\n"`). -/
inductive LogLine where
  | blank : LogLine
  | raw : String → LogLine
  | json : EventObj → LogLine
deriving DecidableEq, Repr

/-- A `RunContent` event line carrying streamed text. -/
def rcEv (c : String) : EventObj :=
  { event := some "RunContent", content := some c, tool := none }

/-- A `ToolCallStarted` event line with tool name and arguments. -/
def tsEv (n a : String) : EventObj :=
  { event := some "ToolCallStarted", content := none,
    tool := some { tool_name := some n, tool_args := some a, result := none } }

/-- A `ToolCallCompleted` event line with a result payload. -/
def tcEv (r : String) : EventObj :=
  { event := some "ToolCallCompleted", content := none,
    tool := some { tool_name := none, tool_args := none, result := some r } }

/-- The terminal `RunCompleted` event line with the final content. -/
def doneEv (c : String) : EventObj :=
  { event := some "RunCompleted", content := some c, tool := none }

/-- Whether a log line survives the `if line.strip()` filters. -/
def nonBlank : LogLine → Bool
  | LogLine.blank => false
  | _ => true

/-! ## extract_assistant_content (chat.py lines 39-57)

The function keeps the non-empty lines, looks only at the last one, and
returns its `content` when it parses as JSON with `event == "RunCompleted"`,
and `""` in every other case (parse failure included, via the bare
`except`). -/

def extract_assistant_content (lines : List LogLine) : String :=
  let ls := lines.filter nonBlank
  match ls.getLast? with
  | none => ""
  | some LogLine.blank => ""
  | some (LogLine.raw _) => ""
  | some (LogLine.json e) =>
      if e.event = some "RunCompleted" then e.content.getD "" else ""

/-! ## render_message_events (chat.py lines 79-195)

The renderer parses the log lines (skipping blank and malformed ones),
then performs a single left-to-right pass that groups events into render
blocks.  The Python code keeps the currently active tool block *inside*
`render_blocks` and mutates it in place on completion; while a tool block
is active nothing else is ever appended after it (text only accumulates
in the buffer, and every append path first closes the active block), so
the pass is modelled purely by keeping the active block out of the list
and committing it, at its original position, as soon as it can no longer
change. -/

/-- A render block: either accumulated text or a tool popover.  `args` is
`none` exactly when the Python dict stores `None` (the orphaned-result
fallback block). -/
structure ToolBlockData where
  name : String
  args : Option String
  result : Option String
  completed : Bool
deriving DecidableEq, Repr

inductive RenderBlock where
  | text : String → RenderBlock
  | tool : ToolBlockData → RenderBlock
deriving DecidableEq, Repr

/-- Aggregation state of the single pass: blocks that can no longer
change, the joined `current_text_buffer`, and the `active_tool_block`
(which, in the Python list, sits right after `blocks`). -/
structure AggState where
  blocks : List RenderBlock
  buffer : String
  active : Option ToolBlockData
deriving DecidableEq, Repr

/-- Commit the active tool block (if any) at its position at the end of
the committed blocks. -/
def commitActive (s : AggState) : AggState :=
  match s.active with
  | none => s
  | some t => { s with blocks := s.blocks ++ [RenderBlock.tool t], active := none }

/-- Flush the text buffer as a `text` block if non-empty (the Python
`if current_text_buffer:` guard: the buffer list only ever receives
non-empty strings, so list non-emptiness coincides with the joined
string being non-empty). -/
def flushBuffer (s : AggState) : AggState :=
  if s.buffer = "" then s
  else { s with blocks := s.blocks ++ [RenderBlock.text s.buffer], buffer := "" }

/-- One step of the event loop of `render_message_events` (lines 104-151).
Events whose discriminator is none of the three handled ones (for example
`RunCompleted`) fall through the `elif` chain and leave the state
untouched.  Line 133 guards the merge with
`if active_tool_block and not active_tool_block["completed"]`; the active
block is created with `completed = False` and never modified while it
stays active, so on every state the pass can reach the second conjunct is
redundant (proved below as `activeOpen_runAgg`), and the model matches on
`s.active` alone. -/
def aggStep (s : AggState) (e : EventObj) : AggState :=
  if e.event = some "RunContent" then
    let c := e.content.getD ""
    if c = "" then s else { s with buffer := s.buffer ++ c }
  else if e.event = some "ToolCallStarted" then
    let s1 := flushBuffer (commitActive s)
    let nt : ToolBlockData :=
      { name := (e.tool.bind ToolObj.tool_name).getD "Unknown Tool",
        args := some ((e.tool.bind ToolObj.tool_args).getD ""),
        result := none, completed := false }
    { s1 with active := some nt }
  else if e.event = some "ToolCallCompleted" then
    let res := ((e.tool.bind ToolObj.result).getD "")
    match s.active with
    | some t =>
        { s with
          blocks := s.blocks ++
            [RenderBlock.tool { t with result := some res, completed := true }],
          active := none }
    | none =>
        let s1 := flushBuffer s
        { s1 with blocks := s1.blocks ++
            [RenderBlock.tool
              { name := "Tool Result", args := none, result := some res,
                completed := true }] }
  else s

/-- Initial aggregation state. -/
def initAgg : AggState := { blocks := [], buffer := "", active := none }

/-- Run the event loop over a full event list. -/
def runAgg (events : List EventObj) : AggState :=
  events.foldl aggStep initAgg

/-- The block sequence produced for an event list: run the loop, then the
final `if current_text_buffer:` flush of line 154 (the still-open active
tool block stays in the list at its position, before that final flush). -/
def aggregateEvents (events : List EventObj) : List RenderBlock :=
  (flushBuffer (commitActive (runAgg events))).blocks

/-- Keep the lines that parse as JSON objects (lines 88-94: blank lines
are skipped by `line.strip()`, undecodable ones by the
`except json.JSONDecodeError: pass`). -/
def parseLines (lines : List LogLine) : List EventObj :=
  lines.filterMap fun l =>
    match l with
    | LogLine.json e => some e
    | _ => none

/-- The block sequence `render_message_events` renders for a stored log. -/
def render_message_events (lines : List LogLine) : List RenderBlock :=
  aggregateEvents (parseLines lines)

/-! ## Marked-context assembly (chat.py lines 264-276)

`render` builds `marked_context_str` from `st.session_state["history"][:-1]`
(the session exchanges excluding the in-flight one): for each entry with
`marked` set it extracts the assistant content and, only when that content
is non-empty, appends the `User/Assistant` entry. -/

/-- One history entry as loaded from the store: user text, serialized
assistant event log, and the marked flag. -/
structure HistoryMsg where
  user : String
  assistant : List LogLine
  marked : Bool
deriving DecidableEq, Repr

/-- The context entry concatenated for a marked exchange. -/
def markedEntry (m : HistoryMsg) (content : String) : String :=
  "User: " ++ m.user ++ "\nAssistant: " ++ content ++ "\n---\n"

/-- Loop body of the marked-context accumulation (lines 272-276): append
the entry only when the exchange is marked and its extracted content is
non-empty. -/
def markedStep (acc : String) (m : HistoryMsg) : String :=
  if m.marked then
    let content := extract_assistant_content m.assistant
    if content ≠ "" then acc ++ markedEntry m content else acc
  else acc

/-- The built `marked_context_str` (lines 265-276), taking the raw session
history (the in-flight last entry is dropped by the `[:-1]` slice). -/
def buildMarkedContext (useMarked : Bool) (history : List HistoryMsg) : String :=
  if useMarked then history.dropLast.foldl markedStep "" else ""

/-- What one history entry contributes to `marked_context_str`: its entry
when marked with non-empty extracted content, nothing otherwise.  Used to
state the closed form of the accumulation. -/
def markedPiece (m : HistoryMsg) : String :=
  if m.marked then
    let content := extract_assistant_content m.assistant
    if content ≠ "" then markedEntry m content else ""
  else ""

/-- Concatenation, in order, of the contributions of a history list. -/
def concatPieces : List HistoryMsg → String
  | [] => ""
  | m :: rest => markedPiece m ++ concatPieces rest

/-! ## Turn execution (chat.py lines 288-333)

The streaming section of `render`: the stream yields some event chunks,
each serialized with `json.dumps` and appended (plus newline) to
`full_response`; if an exception escapes, the `except` arm appends one
synthetic `RunContent` line carrying the error message; the `finally` arm
always resets `st.session_state.running` to `None` and calls
`save_exchange_to_db` exactly once with the accumulated `full_response`.
The external stream is modelled by the chunks it yielded before finishing
or raising, plus the optional exception message. -/

/-- A persisted exchange row, as written by `save_exchange_to_db`. -/
structure Exchange where
  session_id : String
  user_text : String
  raw_event_log : List LogLine
deriving DecidableEq, Repr

/-- Observable outcome of one processed turn: the accumulated event log,
the exchanges persisted for the turn, and the in-flight guard value after
the `finally` arm ran. -/
structure TurnOutcome where
  log : List LogLine
  saved : List Exchange
  running : Option String
deriving DecidableEq, Repr

/-- The warning text stored when no agent is configured (line 292; the
source string is abbreviated, its exact wording is immaterial: it is a
non-JSON line). -/
def agentWarning : String := "Agent not initialized. Please configure the model."

/-- The synthetic error event appended by the `except` arm (line 321). -/
def errorEventLine (msg : String) : LogLine :=
  LogLine.json
    { event := some "RunContent", content := some ("\n\nError: " ++ msg),
      tool := none }

/-- The turn-processing block (lines 288-333).  `yielded` are the chunks
the stream produced before ending; `streamError` is the message of the
exception that interrupted it, if any. -/
def runTurn (agentPresent : Bool) (sessionId query : String)
    (yielded : List EventObj) (streamError : Option String) : TurnOutcome :=
  let log : List LogLine :=
    if agentPresent then
      match streamError with
      | none => yielded.map LogLine.json
      | some m => yielded.map LogLine.json ++ [errorEventLine m]
    else
      [LogLine.raw agentWarning]
  { log := log,
    saved := [{ session_id := sessionId, user_text := query, raw_event_log := log }],
    running := none }

/-! ## HeuristicReranker (src/utils/heuristic_reranker.py) -/

/-- A candidate document: content plus the mutable `reranking_score`
attribute (absent until the reranker assigns it). -/
structure Document where
  content : String
  reranking_score : Option ℚ
deriving DecidableEq, Repr

/-- Outcome of one judge invocation for one document, covering the whole
`try` body: `ok (some q)` when the `<score>` regex matched the number `q`
(non-negative by the regex shape), `ok none` when the response carried no
parsable score, `error` when an exception was raised. -/
inductive JudgeResult where
  | ok : Option ℚ → JudgeResult
  | error : JudgeResult
deriving DecidableEq, Repr

/-- The validated configuration fields of `HeuristicReranker`. -/
structure RerankerConfig where
  top_n : Option Int
  score_threshold : Option ℚ
  collected_number : Option Int
deriving DecidableEq, Repr

/-- The check `self.top_n is not None and self.top_n < 1` (line 61). -/
def badTopN : Option Int → Bool
  | some n => n < 1
  | none => false

/-- The check `self.collected_number is not None and self.collected_number < 1`
(line 63). -/
def badCollected : Option Int → Bool
  | some n => n < 1
  | none => false

/-- The check `self.score_threshold is not None and not (0.0 <= self.score_threshold <= 1.0)`
(line 65). -/
def badThreshold : Option ℚ → Bool
  | some q => !(decide (0 ≤ q) && decide (q ≤ 1))
  | none => false

/-- The check `self.collected_number is not None and self.score_threshold is None`
(line 67). -/
def comboBad (c : Option Int) (s : Option ℚ) : Bool :=
  c.isSome && s.isNone

/-- `HeuristicReranker.__init__` (lines 57-68): the four validation checks
in source order; a passing configuration is stored exactly as given (the
messages drop the f-string interpolated value, which is immaterial). -/
def initHeuristicReranker (t : Option Int) (s : Option ℚ) (c : Option Int) :
    Except String RerankerConfig :=
  if badTopN t then Except.error "top_n must be a positive integer"
  else if badCollected c then Except.error "collected_number must be a positive integer"
  else if badThreshold s then Except.error "score_threshold must be between 0.0 and 1.0"
  else if comboBad c s then
    Except.error "score_threshold must be provided when collected_number is set."
  else Except.ok { top_n := t, score_threshold := s, collected_number := c }

/-- The clamp `max(0.0, min(1.0, score))` of line 136, written with
explicit branches (equal to `max 0 (min 1 q)`) so concrete instances
reduce in the kernel. -/
def clampScore (q : ℚ) : ℚ :=
  let m := if (1 : ℚ) ≤ q then (1 : ℚ) else q
  if m ≤ 0 then 0 else m

/-- The per-document loop of `rerank` (lines 85-160), over the remaining
documents, the index `i` of the head document in the original input (used
to address the judge oracle), and the accumulated `scored_docs`.  Returns
the final `scored_docs` together with the list of input positions for
which the judge was invoked.  Mirrors the source branch for branch:

* exception (`except` arm, lines 157-160): score `0.0`, document kept,
  loop continues, no early-exit check;
* parse failure (lines 150-155): with a configured threshold `> 0` the
  document is skipped, otherwise it is kept with score `0.0`;
* parsed score (lines 134-147): clamp, assign; with a threshold, keep
  exactly when `score >= threshold` and then, if `collected_number` is
  set and `len(scored_docs)` has reached it, stop immediately; with no
  threshold, keep unconditionally. -/
def rerankLoop (cfg : RerankerConfig) (judge : Nat → JudgeResult) :
    List Document → Nat → List Document → List Document × List Nat
  | [], _, scored => (scored, [])
  | doc :: rest, i, scored =>
    match judge i with
    | JudgeResult.error =>
        let d := { doc with reranking_score := some 0 }
        let r := rerankLoop cfg judge rest (i + 1) (scored ++ [d])
        (r.1, i :: r.2)
    | JudgeResult.ok none =>
        match cfg.score_threshold with
        | some t =>
            if 0 < t then
              let r := rerankLoop cfg judge rest (i + 1) scored
              (r.1, i :: r.2)
            else
              let d := { doc with reranking_score := some 0 }
              let r := rerankLoop cfg judge rest (i + 1) (scored ++ [d])
              (r.1, i :: r.2)
        | none =>
            let d := { doc with reranking_score := some 0 }
            let r := rerankLoop cfg judge rest (i + 1) (scored ++ [d])
            (r.1, i :: r.2)
    | JudgeResult.ok (some raw) =>
        let score := clampScore raw
        let d := { doc with reranking_score := some score }
        match cfg.score_threshold with
        | none =>
            let r := rerankLoop cfg judge rest (i + 1) (scored ++ [d])
            (r.1, i :: r.2)
        | some t =>
            let scored' := if t ≤ score then scored ++ [d] else scored
            match cfg.collected_number with
            | some k =>
                if k ≤ (scored'.length : Int) then (scored', [i])
                else
                  let r := rerankLoop cfg judge rest (i + 1) scored'
                  (r.1, i :: r.2)
            | none =>
                let r := rerankLoop cfg judge rest (i + 1) scored'
                (r.1, i :: r.2)

/-- The sort key of line 163: the assigned score, `0.0` when unset. -/
def scoreKey (d : Document) : ℚ := d.reranking_score.getD 0

/-- `HeuristicReranker.rerank` (lines 70-169): empty input short-circuit,
the `_llm is None` guard returning the input unchanged, the scoring loop,
the stable descending sort by score (Python `list.sort` with
`reverse=True` is stable), and the optional `top_n` truncation
(`scored_docs[:top_n]`; construction validates `top_n >= 1`, for which the
slice coincides with `take`).  The second component reports which input
positions were scored. -/
def rerank (cfg : RerankerConfig) (llmInitialized : Bool)
    (judge : Nat → JudgeResult) (documents : List Document) :
    List Document × List Nat :=
  if documents.isEmpty then ([], [])
  else if llmInitialized then
    let r := rerankLoop cfg judge documents 0 []
    let sorted := r.1.mergeSort fun a b => decide (scoreKey b ≤ scoreKey a)
    match cfg.top_n with
    | some n => (sorted.take n.toNat, r.2)
    | none => (sorted, r.2)
  else (documents, [])

/-- Number of positions `j` with `i ≤ j < i + len` whose judged score,
after clamping, meets the threshold `t`.  Used to state the early-exit
property of the reranker loop. -/
def countQualifying (q : Nat → ℚ) (t : ℚ) (i len : Nat) : Nat :=
  ((List.range' i len).filter fun j => decide (t ≤ clampScore (q j))).length

/-- The document as it looks after the loop assigned it the clamped judged
score of position `j`. -/
def withScore (d : Document) (q : Nat → ℚ) (j : Nat) : Document :=
  { d with reranking_score := some (clampScore (q j)) }

/-! ## Helper lemmas: aggregation pass -/

theorem commitActive_blocks (s : AggState) :
    (commitActive s).blocks = s.blocks ++ (s.active.map RenderBlock.tool).toList := by
  cases h : s.active <;> simp [commitActive, h]

theorem commitActive_buffer (s : AggState) :
    (commitActive s).buffer = s.buffer := by
  cases h : s.active <;> simp [commitActive, h]

theorem flushBuffer_blocks (s : AggState) :
    (flushBuffer s).blocks
      = s.blocks ++ (if s.buffer = "" then [] else [RenderBlock.text s.buffer]) := by
  by_cases h : s.buffer = "" <;> simp [flushBuffer, h]

theorem aggStep_blocks_extends (s : AggState) (e : EventObj) :
    ∃ t, (aggStep s e).blocks = s.blocks ++ t := by
  unfold aggStep
  by_cases h1 : e.event = some "RunContent"
  · simp only [h1, if_true]
    by_cases hc : e.content.getD "" = ""
    · exact ⟨[], by simp [hc]⟩
    · exact ⟨[], by simp [hc]⟩
  · simp only [h1, if_false]
    by_cases h2 : e.event = some "ToolCallStarted"
    · simp only [h2, if_true]
      refine ⟨(s.active.map RenderBlock.tool).toList ++
        (if (commitActive s).buffer = "" then []
         else [RenderBlock.text (commitActive s).buffer]), ?_⟩
      simp [flushBuffer_blocks, commitActive_blocks, List.append_assoc]
    · simp only [h2, if_false]
      by_cases h3 : e.event = some "ToolCallCompleted"
      · simp only [h3, if_true]
        cases ha : s.active with
        | some t =>
            exact ⟨[RenderBlock.tool
              { t with result := some ((e.tool.bind ToolObj.result).getD ""),
                       completed := true }], by simp⟩
        | none =>
            refine ⟨(if s.buffer = "" then [] else [RenderBlock.text s.buffer]) ++
              [RenderBlock.tool
                { name := "Tool Result", args := none,
                  result := some ((e.tool.bind ToolObj.result).getD ""),
                  completed := true }], ?_⟩
            simp [flushBuffer_blocks, List.append_assoc]
      · exact ⟨[], by simp [h3]⟩

theorem blocks_isPrefix_aggStep (s : AggState) (e : EventObj) :
    s.blocks <+: (aggStep s e).blocks := by
  obtain ⟨t, ht⟩ := aggStep_blocks_extends s e
  exact ⟨t, ht.symm⟩

theorem blocks_isPrefix_foldl (es : List EventObj) :
    ∀ s : AggState, s.blocks <+: (es.foldl aggStep s).blocks := by
  induction es with
  | nil => intro s; exact List.prefix_rfl
  | cons e es ih =>
      intro s
      exact (blocks_isPrefix_aggStep s e).trans (ih (aggStep s e))

theorem blocks_isPrefix_aggregate (es : List EventObj) (s : AggState)
    (h : s = runAgg es) : s.blocks <+: aggregateEvents es := by
  subst h
  unfold aggregateEvents
  refine List.IsPrefix.trans ⟨_, (commitActive_blocks (runAgg es)).symm⟩ ?_
  exact ⟨_, (flushBuffer_blocks (commitActive (runAgg es))).symm⟩

theorem aggregateEvents_decomp (es : List EventObj) :
    ∃ tail, aggregateEvents es = (runAgg es).blocks ++ tail ∧ tail.length ≤ 2 := by
  unfold aggregateEvents
  refine ⟨((runAgg es).active.map RenderBlock.tool).toList ++
    (if (commitActive (runAgg es)).buffer = "" then []
     else [RenderBlock.text (commitActive (runAgg es)).buffer]), ?_, ?_⟩
  · simp [flushBuffer_blocks, commitActive_blocks, List.append_assoc]
  · have h1 : ((runAgg es).active.map RenderBlock.tool).toList.length ≤ 1 := by
      cases h : (runAgg es).active <;> simp [h]
    have h2 : (if (commitActive (runAgg es)).buffer = "" then ([] : List RenderBlock)
        else [RenderBlock.text (commitActive (runAgg es)).buffer]).length ≤ 1 := by
      by_cases h : (commitActive (runAgg es)).buffer = "" <;> simp [h]
    rw [List.length_append]
    omega

theorem runAgg_append (e₁ e₂ : List EventObj) :
    runAgg (e₁ ++ e₂) = e₂.foldl aggStep (runAgg e₁) := by
  unfold runAgg
  exact List.foldl_append ..

theorem activeOpen_aggStep (s : AggState) (e : EventObj)
    (h : ∀ t, s.active = some t → t.completed = false ∧ t.result = none) :
    ∀ t, (aggStep s e).active = some t → t.completed = false ∧ t.result = none := by
  intro t ht
  unfold aggStep at ht
  by_cases h1 : e.event = some "RunContent"
  · simp only [h1, if_true] at ht
    by_cases hc : e.content.getD "" = ""
    · simp only [hc, if_true] at ht
      exact h t ht
    · simp only [hc, if_false] at ht
      exact h t ht
  · simp only [h1, if_false] at ht
    by_cases h2 : e.event = some "ToolCallStarted"
    · simp only [h2, if_true, Option.some.injEq] at ht
      subst ht
      exact ⟨rfl, rfl⟩
    · simp only [h2, if_false] at ht
      by_cases h3 : e.event = some "ToolCallCompleted"
      · simp only [h3, if_true] at ht
        cases ha : s.active with
        | some t0 => rw [ha] at ht; simp at ht
        | none =>
            rw [ha] at ht
            simp only [flushBuffer] at ht
            by_cases hb : s.buffer = "" <;> simp [hb, ha] at ht
      · simp only [h3, if_false] at ht
        exact h t ht

theorem activeOpen_foldl (es : List EventObj) :
    ∀ s : AggState,
      (∀ t, s.active = some t → t.completed = false ∧ t.result = none) →
      ∀ t, (es.foldl aggStep s).active = some t →
        t.completed = false ∧ t.result = none := by
  induction es with
  | nil => intro s h; exact h
  | cons e es ih =>
      intro s h
      exact ih (aggStep s e) (activeOpen_aggStep s e h)

theorem activeOpen_runAgg (es : List EventObj) :
    ∀ t, (runAgg es).active = some t → t.completed = false ∧ t.result = none := by
  refine activeOpen_foldl es initAgg ?_
  intro t ht
  simp [initAgg] at ht

/-! ## Helper lemmas: marked-context accumulation -/

theorem markedStep_eq (acc : String) (m : HistoryMsg) :
    markedStep acc m = acc ++ markedPiece m := by
  unfold markedStep markedPiece
  by_cases hm : m.marked
  · simp only [hm, if_true]
    by_cases hc : extract_assistant_content m.assistant ≠ ""
    · simp [hc]
    · simp [hc, String.append_empty]
  · simp [hm, String.append_empty]

theorem foldl_markedStep (l : List HistoryMsg) :
    ∀ acc : String, l.foldl markedStep acc = acc ++ concatPieces l := by
  induction l with
  | nil => intro acc; simp [concatPieces, String.append_empty]
  | cons m l ih =>
      intro acc
      simp only [List.foldl_cons, concatPieces]
      rw [ih, markedStep_eq, String.append_assoc]

/-! ## Helper lemmas: reranker loop -/

theorem rerankLoop_acc (cfg : RerankerConfig) (judge : Nat → JudgeResult) :
    ∀ (docs : List Document) (i : Nat) (scored : List Document),
      ∃ tail, (rerankLoop cfg judge docs i scored).1 = scored ++ tail := by
  intro docs
  induction docs with
  | nil => intro i scored; exact ⟨[], by simp [rerankLoop]⟩
  | cons doc rest ih =>
      intro i scored
      unfold rerankLoop
      cases hj : judge i with
      | error =>
          obtain ⟨tail, htail⟩ :=
            ih (i + 1) (scored ++ [{ doc with reranking_score := some 0 }])
          exact ⟨{ doc with reranking_score := some 0 } :: tail, by
            simp only []
            rw [htail, List.append_assoc]
            simp⟩
      | ok sc =>
          cases sc with
          | none =>
              cases ht : cfg.score_threshold with
              | some t =>
                  by_cases h0 : 0 < t
                  · obtain ⟨tail, htail⟩ := ih (i + 1) scored
                    exact ⟨tail, by simp only [h0, if_true]; exact htail⟩
                  · obtain ⟨tail, htail⟩ :=
                      ih (i + 1) (scored ++ [{ doc with reranking_score := some 0 }])
                    exact ⟨{ doc with reranking_score := some 0 } :: tail, by
                      simp only [h0, if_false]
                      rw [htail, List.append_assoc]
                      simp⟩
              | none =>
                  obtain ⟨tail, htail⟩ :=
                    ih (i + 1) (scored ++ [{ doc with reranking_score := some 0 }])
                  exact ⟨{ doc with reranking_score := some 0 } :: tail, by
                    simp only []
                    rw [htail, List.append_assoc]
                    simp⟩
          | some raw =>
              cases ht : cfg.score_threshold with
              | none =>
                  obtain ⟨tail, htail⟩ :=
                    ih (i + 1)
                      (scored ++ [{ doc with reranking_score := some (clampScore raw) }])
                  exact ⟨{ doc with reranking_score := some (clampScore raw) } :: tail, by
                    simp only []
                    rw [htail, List.append_assoc]
                    simp⟩
              | some t =>
                  by_cases hq : t ≤ clampScore raw
                  · cases hc : cfg.collected_number with
                    | some k =>
                        by_cases hk :
                          k ≤ ((scored ++
                            [{ doc with reranking_score := some (clampScore raw) }]).length : Int)
                        · exact ⟨[{ doc with reranking_score := some (clampScore raw) }], by
                            simp only [hq, if_true, hk, if_true]⟩
                        · obtain ⟨tail, htail⟩ :=
                            ih (i + 1)
                              (scored ++ [{ doc with reranking_score := some (clampScore raw) }])
                          exact ⟨{ doc with reranking_score := some (clampScore raw) } :: tail, by
                            simp only [hq, if_true, hk, if_false]
                            rw [htail, List.append_assoc]
                            simp⟩
                    | none =>
                        obtain ⟨tail, htail⟩ :=
                          ih (i + 1)
                            (scored ++ [{ doc with reranking_score := some (clampScore raw) }])
                        exact ⟨{ doc with reranking_score := some (clampScore raw) } :: tail, by
                          simp only [hq, if_true]
                          rw [htail, List.append_assoc]
                          simp⟩
                  · cases hc : cfg.collected_number with
                    | some k =>
                        by_cases hk : k ≤ ((scored).length : Int)
                        · exact ⟨[], by simp only [hq, if_false, hk, if_true]; simp⟩
                        · obtain ⟨tail, htail⟩ := ih (i + 1) scored
                          exact ⟨tail, by simp only [hq, if_false, hk, if_false]; exact htail⟩
                    | none =>
                        obtain ⟨tail, htail⟩ := ih (i + 1) scored
                        exact ⟨tail, by simp only [hq, if_false]; exact htail⟩

theorem mem_rerankLoop_of_mem_scored (cfg : RerankerConfig) (judge : Nat → JudgeResult)
    (docs : List Document) (i : Nat) (scored : List Document) (x : Document)
    (hx : x ∈ scored) : x ∈ (rerankLoop cfg judge docs i scored).1 := by
  obtain ⟨tail, htail⟩ := rerankLoop_acc cfg judge docs i scored
  rw [htail]
  exact List.mem_append_left _ hx

theorem countQualifying_zero (q : Nat → ℚ) (t : ℚ) (i : Nat) :
    countQualifying q t i 0 = 0 := rfl

theorem countQualifying_succ (q : Nat → ℚ) (t : ℚ) (i len : Nat) :
    countQualifying q t i (len + 1)
      = (if t ≤ clampScore (q i) then 1 else 0) + countQualifying q t (i + 1) len := by
  unfold countQualifying
  rw [List.range'_succ, List.filter_cons]
  by_cases h : t ≤ clampScore (q i)
  · rw [if_pos h, if_pos (by exact decide_eq_true h)]
    rw [List.length_cons]
    omega
  · rw [if_neg h, if_neg (by simp [h])]
    omega

theorem rerankLoop_stops (cfg : RerankerConfig) (judge : Nat → JudgeResult)
    (q : Nat → ℚ) (t : ℚ) (k : Int)
    (hthr : cfg.score_threshold = some t) (hcol : cfg.collected_number = some k)
    (hj : ∀ j, judge j = JudgeResult.ok (some (q j))) :
    ∀ (X : List Document) (d : Document) (Y : List Document) (i : Nat)
      (scored : List Document),
      (scored.length : Int) + (countQualifying q t i X.length : Int) = k - 1 →
      t ≤ clampScore (q (i + X.length)) →
      (rerankLoop cfg judge (X ++ d :: Y) i scored).2 = List.range' i (X.length + 1) ∧
      ∀ x ∈ (rerankLoop cfg judge (X ++ d :: Y) i scored).1,
        x ∈ scored ∨ ∃ j, j ≤ X.length ∧ ∃ d0, (X ++ [d])[j]? = some d0 ∧
          x = withScore d0 q (i + j) := by
  intro X
  induction X with
  | nil =>
      intro d Y i scored hcount hqual
      simp only [List.length_nil, countQualifying_zero, Nat.cast_zero, add_zero,
        Nat.add_zero] at hcount hqual
      have hstop : k ≤ ((scored ++
          [{ d with reranking_score := some (clampScore (q i)) }]).length : Int) := by
        simp only [List.length_append, List.length_singleton]
        push_cast
        omega
      simp only [List.nil_append, rerankLoop, hj i, hthr, hcol]
      rw [if_pos hqual, if_pos hstop]
      constructor
      · simp only [List.length_nil, Nat.zero_add, List.range'_one]
      · intro x hx
        simp only [List.length_nil]
        rcases List.mem_append.mp hx with hs | hs
        · exact Or.inl hs
        · right
          refine ⟨0, Nat.le_refl 0, d, by simp, ?_⟩
          simp only [List.mem_singleton] at hs
          rw [hs, withScore, Nat.add_zero]
  | cons a X ih =>
      intro d Y i scored hcount hqual
      rw [List.length_cons, countQualifying_succ] at hcount
      have hidx : i + (X.length + 1) = (i + 1) + X.length := by omega
      rw [List.length_cons, hidx] at hqual
      simp only [List.cons_append, rerankLoop, hj i, hthr, hcol, List.append_eq]
      by_cases hqi : t ≤ clampScore (q i)
      · rw [if_pos hqi] at hcount ⊢
        have hnostop :
            ¬ (k ≤ ((scored ++
              [{ a with reranking_score := some (clampScore (q i)) }]).length : Int)) := by
          simp only [List.length_append, List.length_singleton]
          push_cast at hcount ⊢
          omega
        rw [if_neg hnostop]
        have hcount' :
            (((scored ++
              [{ a with reranking_score := some (clampScore (q i)) }]).length : Nat) : Int)
              + (countQualifying q t (i + 1) X.length : Int) = k - 1 := by
          simp only [List.length_append, List.length_singleton]
          push_cast at hcount ⊢
          omega
        obtain ⟨hjudged, hmem⟩ :=
          ih d Y (i + 1) (scored ++ [{ a with reranking_score := some (clampScore (q i)) }])
            hcount' hqual
        constructor
        · simp only [List.length_cons]
          rw [List.range'_succ]
          exact congrArg (i :: ·) hjudged
        · intro x hx
          have hx' := hmem x hx
          rcases hx' with hx' | ⟨j, hj', d0, hd0, hxeq⟩
          · rcases List.mem_append.mp hx' with hs | hs
            · exact Or.inl hs
            · right
              refine ⟨0, Nat.zero_le _, a, by simp, ?_⟩
              simp only [List.mem_singleton] at hs
              rw [hs, withScore, Nat.add_zero]
          · right
            refine ⟨j + 1, by simp only [List.length_cons]; omega, d0, ?_, ?_⟩
            · simpa using hd0
            · rw [hxeq]
              have harg : i + 1 + j = i + (j + 1) := by omega
              rw [harg]
      · rw [if_neg hqi] at hcount ⊢
        have hnostop : ¬ (k ≤ ((scored).length : Int)) := by
          push_cast at hcount
          omega
        rw [if_neg hnostop]
        have hcount' :
            ((scored.length : Nat) : Int)
              + (countQualifying q t (i + 1) X.length : Int) = k - 1 := by
          push_cast at hcount ⊢
          omega
        obtain ⟨hjudged, hmem⟩ := ih d Y (i + 1) scored hcount' hqual
        constructor
        · simp only [List.length_cons]
          rw [List.range'_succ]
          exact congrArg (i :: ·) hjudged
        · intro x hx
          have hx' := hmem x hx
          rcases hx' with hx' | ⟨j, hj', d0, hd0, hxeq⟩
          · exact Or.inl hx'
          · right
            refine ⟨j + 1, by simp only [List.length_cons]; omega, d0, ?_, ?_⟩
            · simpa using hd0
            · rw [hxeq]
              have harg : i + 1 + j = i + (j + 1) := by omega
              rw [harg]

/-! ## Claim theorems -/

theorem tsEv_event (n a : String) : (tsEv n a).event = some "ToolCallStarted" := rfl

theorem tcEv_event (r : String) : (tcEv r).event = some "ToolCallCompleted" := rfl

/-- C1: for every submitted turn — including one where the model stream
raises an exception after yielding some events — the turn-processing block
persists exactly one Exchange whose `raw_event_log` is the full accumulated
event log of the turn, resets the in-flight guard (`running := none`), and,
in the exception case, the log is the serialized yielded events followed by
one synthetic `RunContent` line carrying the error message: no turn is lost
or left stuck. -/
theorem C1_turn_always_persisted :
    ∀ (agentPresent : Bool) (sid query : String) (yielded : List EventObj)
      (streamError : Option String),
      (runTurn agentPresent sid query yielded streamError).saved
        = [{ session_id := sid, user_text := query,
             raw_event_log := (runTurn agentPresent sid query yielded streamError).log }] ∧
      (runTurn agentPresent sid query yielded streamError).running = none ∧
      (∀ m, streamError = some m → agentPresent = true →
        (runTurn agentPresent sid query yielded streamError).log
          = yielded.map LogLine.json ++ [errorEventLine m]) := by
  intro ap sid query yielded err
  refine ⟨rfl, rfl, ?_⟩
  intro m hm ha
  subst hm
  subst ha
  simp [runTurn]

/-- Witness for C1: a concrete stream that yields one content event and then
raises. -/
theorem C1_witness :
    (runTurn true "s1" "q1" [rcEv "4"] (some "boom")).log
      = [rcEv "4"].map LogLine.json ++ [errorEventLine "boom"] :=
  (C1_turn_always_persisted true "s1" "q1" [rcEv "4"] (some "boom")).2.2 "boom" rfl rfl

/-- C3 counterexample: the claim fails as stated — aggregating the prefix
`[RunContent "a"]` yields the block list `[text "a"]`, which is not a
block-for-block prefix of `[text "ab"]`, the output for the longer log
`[RunContent "a", RunContent "b"]` (the trailing text block is extended in
place, not preserved). -/
theorem C3_counterexample :
    aggregateEvents [rcEv "a"] = [RenderBlock.text "a"] ∧
    aggregateEvents [rcEv "a", rcEv "b"] = [RenderBlock.text "ab"] ∧
    ¬ (aggregateEvents [rcEv "a"] <+: aggregateEvents [rcEv "a", rcEv "b"]) := by
  refine ⟨by decide, by decide, by decide⟩

/-- C3 (amended): the aggregator is restartable on its committed blocks:
for every pair of event sequences where the first is a prefix of the second,
the committed block sequence of the first run — its block output with the
trailing in-progress blocks removed, namely the final unflushed-text block
and the still-open active tool block, at most the last two blocks — is
reproduced block for block as a prefix of the block sequence produced by
aggregating the longer sequence.  The full output of the shorter run need
not be a prefix, because a later text delta extends the trailing text block
and a later completion fills the open tool block in place. -/
theorem C3_restartable_committed_blocks :
    ∀ (e1 e2 : List EventObj),
      (runAgg e1).blocks <+: aggregateEvents (e1 ++ e2) ∧
      ∃ tail, aggregateEvents e1 = (runAgg e1).blocks ++ tail ∧ tail.length ≤ 2 := by
  intro e1 e2
  constructor
  · have h1 : (runAgg e1).blocks <+: (runAgg (e1 ++ e2)).blocks := by
      rw [runAgg_append]
      exact blocks_isPrefix_foldl e2 (runAgg e1)
    exact h1.trans (blocks_isPrefix_aggregate (e1 ++ e2) _ rfl)
  · exact aggregateEvents_decomp e1

/-- C4 counterexample: in `ToolStarted, TextDelta "a", ToolCompleted,
TextDelta "b"` the matching `ToolCallCompleted` does not flush the text
accumulator, so the output carries exactly one coalesced TextBlock `"ab"`
after the completed ToolBlock — not two distinct TextBlocks as claimed. -/
theorem C4_counterexample :
    aggregateEvents [tsEv "t" "x", rcEv "a", tcEv "r", rcEv "b"]
      = [RenderBlock.tool
          { name := "t", args := some "x", result := some "r", completed := true },
         RenderBlock.text "ab"] ∧
    ((aggregateEvents [tsEv "t" "x", rcEv "a", tcEv "r", rcEv "b"]).filter
        (fun b => match b with | RenderBlock.text _ => true | _ => false)).length
      = 1 := by
  refine ⟨by decide, by decide⟩

/-- C4 (amended): the text accumulator is flushed (emitted as a TextBlock
and cleared) before a `ToolCallStarted` event and before an orphaned
`ToolCallCompleted` event (one arriving with no open tool slot); a
`ToolCallCompleted` matching an open slot leaves the accumulator untouched,
and events of any other type leave the whole state untouched.  Consequently
`ToolStarted, TextDelta "a", ToolCompleted, TextDelta "b"` yields one
completed ToolBlock followed by a single coalesced TextBlock `"ab"`. -/
theorem C4_flush_only_on_tool_boundaries :
    (∀ (s : AggState) (n a : String), s.buffer ≠ "" →
      (aggStep s (tsEv n a)).blocks
        = (commitActive s).blocks ++ [RenderBlock.text s.buffer] ∧
      (aggStep s (tsEv n a)).buffer = "") ∧
    (∀ (s : AggState) (r : String), s.active = none → s.buffer ≠ "" →
      (aggStep s (tcEv r)).blocks
        = s.blocks ++ [RenderBlock.text s.buffer,
            RenderBlock.tool
              { name := "Tool Result", args := none, result := some r,
                completed := true }] ∧
      (aggStep s (tcEv r)).buffer = "") ∧
    (∀ (s : AggState) (r : String) (t : ToolBlockData), s.active = some t →
      (aggStep s (tcEv r)).buffer = s.buffer) ∧
    (∀ (s : AggState) (e : EventObj),
      e.event ≠ some "RunContent" → e.event ≠ some "ToolCallStarted" →
      e.event ≠ some "ToolCallCompleted" → aggStep s e = s) ∧
    aggregateEvents [tsEv "t" "x", rcEv "a", tcEv "r", rcEv "b"]
      = [RenderBlock.tool
          { name := "t", args := some "x", result := some "r", completed := true },
         RenderBlock.text "ab"] := by
  refine ⟨?_, ?_, ?_, ?_, by decide⟩
  · intro s n a hb
    constructor
    · show (aggStep s (tsEv n a)).blocks = _
      unfold aggStep
      rw [if_neg (by rw [tsEv_event]; decide), if_pos (tsEv_event n a)]
      simp [flushBuffer_blocks, commitActive_buffer, hb]
    · unfold aggStep
      rw [if_neg (by rw [tsEv_event]; decide), if_pos (tsEv_event n a)]
      simp [flushBuffer, commitActive_buffer, hb]
  · intro s r ha hb
    constructor
    · unfold aggStep
      rw [if_neg (by rw [tcEv_event]; decide), if_neg (by rw [tcEv_event]; decide),
        if_pos (tcEv_event r), ha]
      simp [flushBuffer_blocks, hb, tcEv]
    · unfold aggStep
      rw [if_neg (by rw [tcEv_event]; decide), if_neg (by rw [tcEv_event]; decide),
        if_pos (tcEv_event r), ha]
      simp [flushBuffer, hb]
  · intro s r t ht
    unfold aggStep
    rw [if_neg (by rw [tcEv_event]; decide), if_neg (by rw [tcEv_event]; decide),
      if_pos (tcEv_event r), ht]
  · intro s e h1 h2 h3
    unfold aggStep
    rw [if_neg h1, if_neg h2, if_neg h3]

/-- Witness for C4: flushing at a concrete state with pending text "a". -/
theorem C4_witness :
    (aggStep { blocks := [], buffer := "a", active := none } (tsEv "t" "x")).blocks
      = (commitActive { blocks := [], buffer := "a", active := none }).blocks
        ++ [RenderBlock.text "a"] :=
  (C4_flush_only_on_tool_boundaries.1
    { blocks := [], buffer := "a", active := none } "t" "x" (by decide)).1

/-- C5 counterexample: a marked exchange whose event log is empty extracts
to the empty string and contributes nothing — `marked_text` is `""` even
though the claim requires the (non-empty) entry for that marked exchange to
be present. -/
theorem C5_counterexample :
    buildMarkedContext true
      [{ user := "q", assistant := [], marked := true },
       { user := "current", assistant := [], marked := false }] = "" ∧
    markedEntry { user := "q", assistant := [], marked := true } "" ≠ "" := by
  refine ⟨by decide, by decide⟩

/-- C5 (amended): with `use_marked` enabled, `marked_text` is exactly the
concatenation, in original order, of one
`"User: ...\nAssistant: ...\n---\n"` entry per Exchange (excluding the
in-flight last one) that is marked *and* whose extracted assistant content
is non-empty; a marked Exchange whose log lacks a terminal RunCompleted
event or is malformed extracts to `""` and is skipped, contributing no
entry. -/
theorem C5_marked_context_closed_form :
    ∀ history : List HistoryMsg,
      buildMarkedContext true history = concatPieces history.dropLast := by
  intro history
  unfold buildMarkedContext
  rw [if_pos rfl, foldl_markedStep, String.empty_append]

/-- C8: `extract_assistant_content` inspects only the last non-blank line of
the log: prepending any lines before a fixed non-blank last line never
changes the result; when that last line parses as a JSON object the result
is its `content` exactly when its `event` is `"RunCompleted"` and `""`
otherwise; a malformed last line or an empty log gives `""`; and a valid
`RunCompleted` line followed by a further line (such as a synthetic error
event appended after completion) is ignored. -/
theorem C8_extract_last_line_only :
    (∀ (pre : List LogLine) (l : LogLine), nonBlank l = true →
      extract_assistant_content (pre ++ [l]) = extract_assistant_content [l]) ∧
    (∀ e : EventObj, extract_assistant_content [LogLine.json e]
      = if e.event = some "RunCompleted" then e.content.getD "" else "") ∧
    (∀ s : String, extract_assistant_content [LogLine.raw s] = "") ∧
    extract_assistant_content [] = "" ∧
    extract_assistant_content
      [LogLine.json (doneEv "4"), LogLine.json (rcEv "oops")] = "" := by
  refine ⟨?_, fun e => rfl, fun s => rfl, rfl, by decide⟩
  intro pre l hl
  unfold extract_assistant_content
  have hfl : List.filter nonBlank [l] = [l] := by simp [hl]
  rw [List.filter_append, hfl]
  simp only [List.getLast?_concat, List.getLast?_singleton]

/-- Witness for C8: prepending a valid RunCompleted line before the last
line does not change extraction. -/
theorem C8_witness :
    extract_assistant_content
      ([LogLine.json (doneEv "4")] ++ [LogLine.json (rcEv "oops")])
      = extract_assistant_content [LogLine.json (rcEv "oops")] :=
  C8_extract_last_line_only.1 [LogLine.json (doneEv "4")] (LogLine.json (rcEv "oops")) rfl

/-- C9: while a tool slot is open its block stays open (`completed = false`,
`result = none`); a second `ToolCallStarted` arriving in that state leaves
the first ToolBlock in the output permanently in that open state (committed
blocks are never removed by later events) and opens a fresh slot for the
second tool; a subsequent `ToolCallCompleted` fills only the second block,
as the concrete run `ToolStarted A, ToolStarted B, ToolCompleted r`
shows. -/
theorem C9_second_tool_start_keeps_first_open :
    (∀ (es : List EventObj) (t : ToolBlockData),
      (runAgg es).active = some t → t.completed = false ∧ t.result = none) ∧
    (∀ (s : AggState) (t : ToolBlockData) (n a : String), s.active = some t →
      RenderBlock.tool t ∈ (aggStep s (tsEv n a)).blocks ∧
      (aggStep s (tsEv n a)).active
        = some { name := n, args := some a, result := none, completed := false }) ∧
    (∀ (s : AggState) (es : List EventObj) (b : RenderBlock),
      b ∈ s.blocks → b ∈ (es.foldl aggStep s).blocks) ∧
    aggregateEvents [tsEv "A" "x", tsEv "B" "y", tcEv "r"]
      = [RenderBlock.tool
          { name := "A", args := some "x", result := none, completed := false },
         RenderBlock.tool
          { name := "B", args := some "y", result := some "r", completed := true }] := by
  refine ⟨fun es t => activeOpen_runAgg es t, ?_, ?_, by decide⟩
  · intro s t n a ht
    constructor
    · unfold aggStep
      rw [if_neg (by rw [tsEv_event]; decide), if_pos (tsEv_event n a)]
      show RenderBlock.tool t ∈ (flushBuffer (commitActive s)).blocks
      rw [flushBuffer_blocks, commitActive_blocks, ht]
      simp
    · unfold aggStep
      rw [if_neg (by rw [tsEv_event]; decide), if_pos (tsEv_event n a)]
      simp [tsEv]
  · intro s es b hb
    exact (blocks_isPrefix_foldl es s).subset hb

/-- Witness for C9: the open-slot invariant at the state reached by one
`ToolCallStarted` event. -/
theorem C9_witness :
    ({ name := "A", args := some "x", result := none, completed := false }
        : ToolBlockData).completed = false ∧
    ({ name := "A", args := some "x", result := none, completed := false }
        : ToolBlockData).result = none :=
  C9_second_tool_start_keeps_first_open.1 [tsEv "A" "x"]
    { name := "A", args := some "x", result := none, completed := false } rfl

/-- C10: with the internal LLM client uninitialized, `rerank` returns the
non-empty input list itself unchanged — same documents in the original
order, no judge invocations, no score assignment, no threshold filtering
and no top_n truncation. -/
theorem C10_no_llm_returns_input :
    ∀ (cfg : RerankerConfig) (judge : Nat → JudgeResult) (docs : List Document),
      docs ≠ [] → rerank cfg false judge docs = (docs, []) := by
  intro cfg judge docs hne
  cases docs with
  | nil => exact absurd rfl hne
  | cons d ds => rfl

/-- Witness for C10 on a concrete single-document list. -/
theorem C10_witness :
    rerank { top_n := none, score_threshold := none, collected_number := none }
      false (fun _ => JudgeResult.ok none)
      [{ content := "d", reranking_score := none }]
      = ([{ content := "d", reranking_score := none }], []) :=
  C10_no_llm_returns_input
    { top_n := none, score_threshold := none, collected_number := none }
    (fun _ => JudgeResult.ok none)
    [{ content := "d", reranking_score := none }] (by decide)

theorem badTopN_iff (t : Option Int) :
    badTopN t = true ↔ ∃ n, t = some n ∧ n < 1 := by
  cases t <;> simp [badTopN]

theorem badCollected_iff (c : Option Int) :
    badCollected c = true ↔ ∃ n, c = some n ∧ n < 1 := by
  cases c <;> simp [badCollected]

theorem badThreshold_iff (s : Option ℚ) :
    badThreshold s = true ↔ ∃ q, s = some q ∧ ¬ (0 ≤ q ∧ q ≤ 1) := by
  cases s with
  | none => simp [badThreshold]
  | some q =>
      constructor
      · intro h
        refine ⟨q, rfl, ?_⟩
        intro hc
        have hfalse : badThreshold (some q) = false := by
          simp [badThreshold, hc.1, hc.2]
        rw [hfalse] at h
        cases h
      · rintro ⟨q2, hq2, h⟩
        obtain rfl := Option.some.inj hq2
        have hand : (decide (0 ≤ q) && decide (q ≤ 1)) = false := by
          by_cases h0 : 0 ≤ q
          · have h1 : ¬ q ≤ 1 := fun h1 => h ⟨h0, h1⟩
            simp [h0, h1]
          · simp [h0]
        simp [badThreshold, hand]

theorem comboBad_iff (c : Option Int) (s : Option ℚ) :
    comboBad c s = true ↔ (c.isSome = true ∧ s = none) := by
  cases c <;> cases s <;> simp [comboBad]

/-- C7: `HeuristicReranker` construction raises exactly on the four invalid
combinations — `top_n` set below 1, `collected_number` set below 1,
`score_threshold` set outside `[0, 1]`, or `collected_number` set while
`score_threshold` is not — and every other configuration constructs
successfully, storing the given values unchanged (no silent clamping). -/
theorem C7_init_validation :
    ∀ (t : Option Int) (s : Option ℚ) (c : Option Int),
      ((∃ msg, initHeuristicReranker t s c = Except.error msg) ↔
        ((∃ n, t = some n ∧ n < 1) ∨ (∃ n, c = some n ∧ n < 1) ∨
         (∃ q, s = some q ∧ ¬ (0 ≤ q ∧ q ≤ 1)) ∨ (c.isSome = true ∧ s = none))) ∧
      (¬ ((∃ n, t = some n ∧ n < 1) ∨ (∃ n, c = some n ∧ n < 1) ∨
          (∃ q, s = some q ∧ ¬ (0 ≤ q ∧ q ≤ 1)) ∨ (c.isSome = true ∧ s = none)) →
        initHeuristicReranker t s c
          = Except.ok { top_n := t, score_threshold := s, collected_number := c }) := by
  intro t s c
  constructor
  · constructor
    · rintro ⟨msg, hmsg⟩
      unfold initHeuristicReranker at hmsg
      split_ifs at hmsg with h1 h2 h3 h4
      · exact Or.inl ((badTopN_iff t).mp h1)
      · exact Or.inr (Or.inl ((badCollected_iff c).mp h2))
      · exact Or.inr (Or.inr (Or.inl ((badThreshold_iff s).mp h3)))
      · exact Or.inr (Or.inr (Or.inr ((comboBad_iff c s).mp h4)))
    · intro hbad
      unfold initHeuristicReranker
      split_ifs with h1 h2 h3 h4
      · exact ⟨_, rfl⟩
      · exact ⟨_, rfl⟩
      · exact ⟨_, rfl⟩
      · exact ⟨_, rfl⟩
      · exfalso
        rcases hbad with hb | hb | hb | hb
        · exact h1 ((badTopN_iff t).mpr hb)
        · exact h2 ((badCollected_iff c).mpr hb)
        · exact h3 ((badThreshold_iff s).mpr hb)
        · exact h4 ((comboBad_iff c s).mpr hb)
  · intro hbad
    unfold initHeuristicReranker
    split_ifs with h1 h2 h3 h4
    · exact absurd (Or.inl ((badTopN_iff t).mp h1)) hbad
    · exact absurd (Or.inr (Or.inl ((badCollected_iff c).mp h2))) hbad
    · exact absurd (Or.inr (Or.inr (Or.inl ((badThreshold_iff s).mp h3)))) hbad
    · exact absurd (Or.inr (Or.inr (Or.inr ((comboBad_iff c s).mp h4)))) hbad
    · rfl

/-- Witness for C7: a fully valid configuration constructs with its values
kept as given. -/
theorem C7_witness :
    initHeuristicReranker (some 2) (some (mkRat 1 2)) (some 1)
      = Except.ok
          { top_n := some 2, score_threshold := some (mkRat 1 2),
            collected_number := some 1 } := by
  refine (C7_init_validation (some 2) (some (mkRat 1 2)) (some 1)).2 ?_
  rintro (⟨n, hn, h⟩ | ⟨n, hn, h⟩ | ⟨q, hq, h⟩ | ⟨hc, hs⟩)
  · cases hn; omega
  · cases hn; omega
  · cases hq
    exact h ⟨by decide, by decide⟩
  · cases hs

theorem rerank_judged_eq_loop (cfg : RerankerConfig) (judge : Nat → JudgeResult)
    (docs : List Document) (h : docs.isEmpty = false) :
    (rerank cfg true judge docs).2 = (rerankLoop cfg judge docs 0 []).2 := by
  unfold rerank
  rw [h]
  cases htop : cfg.top_n <;> simp [htop]

theorem mem_loop_of_mem_rerank (cfg : RerankerConfig) (judge : Nat → JudgeResult)
    (docs : List Document) (x : Document) (h : docs.isEmpty = false)
    (hx : x ∈ (rerank cfg true judge docs).1) :
    x ∈ (rerankLoop cfg judge docs 0 []).1 := by
  unfold rerank at hx
  rw [h] at hx
  cases htop : cfg.top_n with
  | none =>
      simp only [htop, Bool.false_eq_true, if_false, if_true,
        List.mem_mergeSort] at hx
      exact hx
  | some n =>
      simp only [htop, Bool.false_eq_true, if_false, if_true] at hx
      have hx1 := List.take_subset n.toNat _ hx
      rwa [List.mem_mergeSort] at hx1

theorem mem_rerank_of_mem_loop (cfg : RerankerConfig) (judge : Nat → JudgeResult)
    (docs : List Document) (x : Document) (h : docs.isEmpty = false)
    (htop : cfg.top_n = none)
    (hx : x ∈ (rerankLoop cfg judge docs 0 []).1) :
    x ∈ (rerank cfg true judge docs).1 := by
  unfold rerank
  rw [h]
  simp only [htop, Bool.false_eq_true, if_false, if_true, List.mem_mergeSort]
  exact hx

/-- C2: with `score_threshold` and `collected_number` both configured, and
every judge call succeeding with a parsed score, the scoring loop stops as
soon as the `collected_number`-th qualifying document is kept: writing the
input as `A ++ d :: B` where `A` holds exactly `collected_number - 1`
qualifying documents and `d` qualifies, the judge is invoked exactly for
positions `0 .. |A|` (so no document of `B` is ever scored), and every
document of the returned list originates, with its assigned clamped score,
from that judged prefix — the unscored documents of `B` never appear. -/
theorem C2_early_exit_on_collected :
    ∀ (cfg : RerankerConfig) (judge : Nat → JudgeResult) (q : Nat → ℚ) (t : ℚ)
      (k : Int) (A : List Document) (d : Document) (B : List Document),
      cfg.score_threshold = some t →
      cfg.collected_number = some k →
      (∀ j, judge j = JudgeResult.ok (some (q j))) →
      (countQualifying q t 0 A.length : Int) = k - 1 →
      t ≤ clampScore (q A.length) →
      (rerank cfg true judge (A ++ d :: B)).2 = List.range (A.length + 1) ∧
      (∀ x ∈ (rerank cfg true judge (A ++ d :: B)).1,
        ∃ j, j ≤ A.length ∧ ∃ d0, (A ++ [d])[j]? = some d0 ∧
          x = withScore d0 q j) := by
  intro cfg judge q t k A d B hthr hcol hj hcount hqual
  obtain ⟨hjudged, hmem⟩ :=
    rerankLoop_stops cfg judge q t k hthr hcol hj A d B 0 []
      (by simpa using hcount) (by simpa using hqual)
  have hne : (A ++ d :: B).isEmpty = false := by cases A <;> rfl
  constructor
  · rw [rerank_judged_eq_loop cfg judge (A ++ d :: B) hne, List.range_eq_range']
    exact hjudged
  · intro x hx
    have hx' := mem_loop_of_mem_rerank cfg judge (A ++ d :: B) x hne hx
    rcases hmem x hx' with h0 | ⟨j, hji, d0, hd0, hxeq⟩
    · exact absurd h0 (List.not_mem_nil x)
    · refine ⟨j, hji, d0, hd0, ?_⟩
      rw [hxeq, Nat.zero_add]

/-- Witness for C2: threshold 7/10, collected_number 1, every judge call
returning score 1 — the judged positions stop at the first document. -/
theorem C2_witness :
    (rerank
        { top_n := none, score_threshold := some (mkRat 7 10),
          collected_number := some 1 }
        true (fun _ => JudgeResult.ok (some 1))
        [{ content := "a", reranking_score := none },
         { content := "b", reranking_score := none }]).2
      = List.range 1 :=
  (C2_early_exit_on_collected
    { top_n := none, score_threshold := some (mkRat 7 10),
      collected_number := some 1 }
    (fun _ => JudgeResult.ok (some 1)) (fun _ => 1) (mkRat 7 10) 1
    [] { content := "a", reranking_score := none }
    [{ content := "b", reranking_score := none }]
    rfl rfl (fun j => rfl) (by decide) (by decide)).1

/-- C6 counterexample: reranker with `score_threshold = 7/10` (positive),
no `top_n`; the single document's scoring raises an exception — the code
assigns it score 0.0 and keeps it, so it appears in the returned list,
refuting the claim that a positive threshold makes it ineligible. -/
theorem C6_counterexample :
    (rerank
        { top_n := none, score_threshold := some (mkRat 7 10),
          collected_number := none }
        true (fun _ => JudgeResult.error)
        [{ content := "d", reranking_score := none }]).1
      = [{ content := "d", reranking_score := some 0 }] ∧
    ({ content := "d", reranking_score := some 0 } : Document) ∈
      (rerank
        { top_n := none, score_threshold := some (mkRat 7 10),
          collected_number := none }
        true (fun _ => JudgeResult.error)
        [{ content := "d", reranking_score := none }]).1 := by
  have h1 :
      (rerank
        { top_n := none, score_threshold := some (mkRat 7 10),
          collected_number := none }
        true (fun _ => JudgeResult.error)
        [{ content := "d", reranking_score := none }]).1
      = [{ content := "d", reranking_score := some 0 }] := by
    simp [rerank, rerankLoop, List.mergeSort_singleton]
  exact ⟨h1, by rw [h1]; exact List.mem_singleton.mpr rfl⟩

theorem rerankLoop_error_keeps (cfg : RerankerConfig) (judge : Nat → JudgeResult)
    (d : Document) (rest : List Document) (i : Nat) (scored : List Document)
    (hj : judge i = JudgeResult.error) :
    ({ d with reranking_score := some 0 } : Document) ∈
      (rerankLoop cfg judge (d :: rest) i scored).1 := by
  have hstep : (rerankLoop cfg judge (d :: rest) i scored).1
      = (rerankLoop cfg judge rest (i + 1)
          (scored ++ [{ d with reranking_score := some 0 }])).1 := by
    simp only [rerankLoop, hj]
  rw [hstep]
  exact mem_rerankLoop_of_mem_scored cfg judge rest (i + 1) _ _ (by simp)

theorem rerankLoop_skip_to (cfg : RerankerConfig) (judge : Nat → JudgeResult)
    (hcol : cfg.collected_number = none) :
    ∀ (A rest : List Document) (i : Nat) (scored : List Document),
      ∃ scored2, (rerankLoop cfg judge (A ++ rest) i scored).1
        = (rerankLoop cfg judge rest (i + A.length) scored2).1 := by
  intro A
  induction A with
  | nil =>
      intro rest i scored
      exact ⟨scored, by simp⟩
  | cons a A ih =>
      intro rest i scored
      have hlen : (i + 1) + A.length = i + (a :: A).length := by
        simp only [List.length_cons]
        omega
      rw [List.cons_append]
      cases hj : judge i with
      | error =>
          obtain ⟨s2, h2⟩ :=
            ih rest (i + 1) (scored ++ [{ a with reranking_score := some 0 }])
          refine ⟨s2, ?_⟩
          have hstep : (rerankLoop cfg judge (a :: (A ++ rest)) i scored).1
              = (rerankLoop cfg judge (A ++ rest) (i + 1)
                  (scored ++ [{ a with reranking_score := some 0 }])).1 := by
            simp only [rerankLoop, hj]
          rw [hstep, h2, hlen]
      | ok sc =>
          cases sc with
          | none =>
              cases hthr : cfg.score_threshold with
              | some t =>
                  by_cases h0 : 0 < t
                  · obtain ⟨s2, h2⟩ := ih rest (i + 1) scored
                    refine ⟨s2, ?_⟩
                    have hstep : (rerankLoop cfg judge (a :: (A ++ rest)) i scored).1
                        = (rerankLoop cfg judge (A ++ rest) (i + 1) scored).1 := by
                      simp only [rerankLoop, hj, hthr, if_pos h0]
                    rw [hstep, h2, hlen]
                  · obtain ⟨s2, h2⟩ :=
                      ih rest (i + 1) (scored ++ [{ a with reranking_score := some 0 }])
                    refine ⟨s2, ?_⟩
                    have hstep : (rerankLoop cfg judge (a :: (A ++ rest)) i scored).1
                        = (rerankLoop cfg judge (A ++ rest) (i + 1)
                            (scored ++ [{ a with reranking_score := some 0 }])).1 := by
                      simp only [rerankLoop, hj, hthr, if_neg h0]
                    rw [hstep, h2, hlen]
              | none =>
                  obtain ⟨s2, h2⟩ :=
                    ih rest (i + 1) (scored ++ [{ a with reranking_score := some 0 }])
                  refine ⟨s2, ?_⟩
                  have hstep : (rerankLoop cfg judge (a :: (A ++ rest)) i scored).1
                      = (rerankLoop cfg judge (A ++ rest) (i + 1)
                          (scored ++ [{ a with reranking_score := some 0 }])).1 := by
                    simp only [rerankLoop, hj, hthr]
                  rw [hstep, h2, hlen]
          | some raw =>
              cases hthr : cfg.score_threshold with
              | none =>
                  obtain ⟨s2, h2⟩ :=
                    ih rest (i + 1)
                      (scored ++ [{ a with reranking_score := some (clampScore raw) }])
                  refine ⟨s2, ?_⟩
                  have hstep : (rerankLoop cfg judge (a :: (A ++ rest)) i scored).1
                      = (rerankLoop cfg judge (A ++ rest) (i + 1)
                          (scored ++ [{ a with reranking_score := some (clampScore raw) }])).1 := by
                    simp only [rerankLoop, hj, hthr]
                  rw [hstep, h2, hlen]
              | some t =>
                  obtain ⟨s2, h2⟩ :=
                    ih rest (i + 1)
                      (if t ≤ clampScore raw then
                        scored ++ [{ a with reranking_score := some (clampScore raw) }]
                       else scored)
                  refine ⟨s2, ?_⟩
                  have hstep : (rerankLoop cfg judge (a :: (A ++ rest)) i scored).1
                      = (rerankLoop cfg judge (A ++ rest) (i + 1)
                          (if t ≤ clampScore raw then
                            scored ++ [{ a with reranking_score := some (clampScore raw) }]
                           else scored)).1 := by
                    simp only [rerankLoop, hj, hthr, hcol]
                  rw [hstep, h2, hlen]

/-- C6 (amended): a per-document scoring exception is fail-open regardless
of the configured threshold: whenever the loop reaches a document whose
scoring raises — at any input position and from any accumulated state —
that document is assigned score 0.0 and kept in the loop's result; at the
`rerank` level, with no `top_n` truncation and no `collected_number` early
exit (which could stop the loop before the document is reached), a
document at an arbitrary position whose scoring raises appears in the
returned list even when a positive `score_threshold` is configured.  It is
only the parse-failure path — a judge response with no extractable score —
that drops the document under a positive threshold: it is judged but not
kept, and the loop continues without it. -/
theorem C6_exception_fail_open :
    (∀ (cfg : RerankerConfig) (judge : Nat → JudgeResult) (d : Document)
       (rest : List Document) (i : Nat) (scored : List Document),
       judge i = JudgeResult.error →
       ({ d with reranking_score := some 0 } : Document) ∈
         (rerankLoop cfg judge (d :: rest) i scored).1) ∧
    (∀ (cfg : RerankerConfig) (judge : Nat → JudgeResult) (A : List Document)
       (d : Document) (B : List Document),
       cfg.top_n = none → cfg.collected_number = none →
       judge A.length = JudgeResult.error →
       ({ d with reranking_score := some 0 } : Document) ∈
         (rerank cfg true judge (A ++ d :: B)).1) ∧
    (∀ (cfg : RerankerConfig) (judge : Nat → JudgeResult) (d : Document)
       (rest : List Document) (i : Nat) (scored : List Document) (t : ℚ),
       cfg.score_threshold = some t → 0 < t →
       judge i = JudgeResult.ok none →
       rerankLoop cfg judge (d :: rest) i scored
         = ((rerankLoop cfg judge rest (i + 1) scored).1,
            i :: (rerankLoop cfg judge rest (i + 1) scored).2)) := by
  refine ⟨?_, ?_, ?_⟩
  · intro cfg judge d rest i scored hj
    exact rerankLoop_error_keeps cfg judge d rest i scored hj
  · intro cfg judge A d B htop hcol hjerr
    apply mem_rerank_of_mem_loop cfg judge (A ++ d :: B) _ (by cases A <;> rfl) htop
    obtain ⟨scored2, heq⟩ := rerankLoop_skip_to cfg judge hcol A (d :: B) 0 []
    rw [heq]
    exact rerankLoop_error_keeps cfg judge d B (0 + A.length) scored2
      (by rwa [Nat.zero_add])
  · intro cfg judge d rest i scored t hthr hpos hj
    simp only [rerankLoop, hj, hthr, if_pos hpos]

/-- Witness for C6's amended theorem: an exception at position 1 (the
second document) under a positive threshold still leaves that document in
the returned list. -/
theorem C6_witness :
    ({ content := "b", reranking_score := some 0 } : Document) ∈
      (rerank
        { top_n := none, score_threshold := some (mkRat 7 10),
          collected_number := none }
        true
        (fun i => if i = 1 then JudgeResult.error else JudgeResult.ok (some 1))
        [{ content := "a", reranking_score := none },
         { content := "b", reranking_score := none }]).1 := by
  have h := C6_exception_fail_open.2.1
    { top_n := none, score_threshold := some (mkRat 7 10),
      collected_number := none }
    (fun i => if i = 1 then JudgeResult.error else JudgeResult.ok (some 1))
    [{ content := "a", reranking_score := none }]
    { content := "b", reranking_score := none } [] rfl rfl (by decide)
  simpa using h
